import Mathlib

/-!
Shallow embedding of the pywatch coincidence-measurement package:
`async_detector.py` (serial hit source), `event_data_collection.py`
(column-oriented event store), `detector_pool.py` (multi-source
correlation loop) and `_measurement.py` (retrying orchestrator).

Machine integers are modelled as `Int`/`Nat`; Python floats appear only
as stored/parsed opaque numbers (no float arithmetic happens in the
modelled code), so they are modelled as `ℚ`.
-/

namespace PyWatch

/-- A parsed hit record, the dictionary built by
`Detector._make_dict_out_of_measurement` (async_detector.py:139-150):
keys `ard_time`, `amplitude`, `sipm_voltage`, `dead_time`, `temp`,
`comp_time`. -/
structure Hit where
  ard_time : Int
  amplitude : Int
  sipm_voltage : ℚ
  dead_time : Int
  temp : ℚ
  comp_time : Int
deriving DecidableEq, Repr

/-- One whitespace-separated token of a device line, classified by its
numeric content: a token accepted by Python `int`, a token accepted by
`float` but not `int`, or a token accepted by neither. -/
inductive Tok where
  | intTok (n : Int)
  | floatTok (q : ℚ)
  | junkTok
deriving DecidableEq, Repr

/-- Python `int(tok)`: succeeds exactly on integer-shaped tokens. -/
def pyInt : Tok → Option Int
  | .intTok n => some n
  | _ => none

/-- Python `float(tok)`: succeeds on integer- and float-shaped tokens. -/
def pyFloat : Tok → Option ℚ
  | .intTok n => some (n : ℚ)
  | .floatTok q => some q
  | .junkTok => none

/-- Errors raised by `Detector.measurement`: `serial.PortNotOpenError`
when `_reader is None` (the spec taxonomy calls this `ConnectionError`),
and the `IndexError`/`ValueError` raised while decomposing a malformed
line (the spec taxonomy calls this `ParseError`). -/
inductive DetErr where
  | portNotOpen
  | parseError
deriving DecidableEq, Repr

/-- The detector's `self._calibration = lambda x: 0`
(async_detector.py:25). -/
def calibration (_ : Int) : Int := 0

/-- `Detector._make_dict_out_of_measurement(output, time_)`
(async_detector.py:139-150): reads `output[1..5]`, converts with
`int`/`float`, and returns the hit dictionary with
`ard_time = int(output[1]) + start_time + calibration(time_)` and
`comp_time = int(time_)`.  A missing column (`IndexError`) or a failing
conversion (`ValueError`) is a parse error. -/
def make_dict_out_of_measurement (start_time : Int) (output : List Tok)
    (time_ : Int) : Except DetErr Hit :=
  match output[1]? with
  | none => .error .parseError
  | some t1 =>
    match pyInt t1 with
    | none => .error .parseError
    | some n1 =>
      match output[2]? with
      | none => .error .parseError
      | some t2 =>
        match pyInt t2 with
        | none => .error .parseError
        | some n2 =>
          match output[3]? with
          | none => .error .parseError
          | some t3 =>
            match pyFloat t3 with
            | none => .error .parseError
            | some q3 =>
              match output[4]? with
              | none => .error .parseError
              | some t4 =>
                match pyInt t4 with
                | none => .error .parseError
                | some n4 =>
                  match output[5]? with
                  | none => .error .parseError
                  | some t5 =>
                    match pyFloat t5 with
                    | none => .error .parseError
                    | some q5 =>
                      .ok { ard_time := n1 + start_time + calibration time_
                            amplitude := n2
                            sipm_voltage := q3
                            dead_time := n4
                            temp := q5
                            comp_time := time_ }

/-- `Detector.measurement()` (async_detector.py:80-98): raises
`PortNotOpenError` if the reader is not open, otherwise splits the read
line into whitespace-separated tokens and builds the hit dictionary from
them with the current wall-clock time `now` (ms, `time.time() * 1000`,
truncated to int). -/
def measurement (is_open : Bool) (start_time : Int) (ln : List Tok)
    (now : Int) : Except DetErr Hit :=
  if is_open then make_dict_out_of_measurement start_time ln now
  else .error .portNotOpen

/-- A line decomposes into the expected fixed column layout
`[echo][ard_time:int][amplitude:int][sipm_voltage:float][dead_time:int][temp:float]`:
columns 1..5 exist and convert with `int`/`int`/`float`/`int`/`float`. -/
def line_decomposes (ln : List Tok) : Bool :=
  ((ln[1]?).bind pyInt).isSome && ((ln[2]?).bind pyInt).isSome &&
  ((ln[3]?).bind pyFloat).isSome && ((ln[4]?).bind pyInt).isSome &&
  ((ln[5]?).bind pyFloat).isSome

end PyWatch

namespace PyWatch

/-! ## EventDataCollection (event_data_collection.py) -/

/-- A Python value stored in a hit dictionary: an int or a float. -/
inductive PyNum where
  | pint (n : Int)
  | pfloat (q : ℚ)
deriving DecidableEq, Repr

/-- The fixed key list `EventDataCollection._keys`
(event_data_collection.py:15-22). -/
inductive EKey where
  | comp_time
  | ard_time
  | amplitude
  | sipm_voltage
  | dead_time
  | temp
deriving DecidableEq, Repr

/-- A Python hit dictionary as seen by the collection: for each of the
six fixed keys, `none` when the key is absent (`hit[key]` raises
`KeyError`), `some v` when present with value `v`, where the value `v`
itself is `none` for Python `None`.  Dictionaries carrying keys outside
the fixed six are not representable; the collection code never reads
other keys. -/
structure HitData where
  comp_time : Option (Option PyNum)
  ard_time : Option (Option PyNum)
  amplitude : Option (Option PyNum)
  sipm_voltage : Option (Option PyNum)
  dead_time : Option (Option PyNum)
  temp : Option (Option PyNum)
deriving DecidableEq, Repr

/-- Python `hit[key]` lookup on the modelled dictionary. -/
def HitData.get (h : HitData) : EKey → Option (Option PyNum)
  | .comp_time => h.comp_time
  | .ard_time => h.ard_time
  | .amplitude => h.amplitude
  | .sipm_voltage => h.sipm_voltage
  | .dead_time => h.dead_time
  | .temp => h.temp

/-- All six keys are present in the dictionary. -/
def HitData.complete (h : HitData) : Bool :=
  h.comp_time.isSome && h.ard_time.isSome && h.amplitude.isSome &&
  h.sipm_voltage.isSome && h.dead_time.isSome && h.temp.isSome

/-- Exceptions raised by `add_event`/`get_event`: `KeyError` from
`hit[key]` on a missing key, `IndexError` from indexing a column list
out of range. -/
inductive PyErr where
  | keyError
  | indexError
deriving DecidableEq, Repr

/-- The per-key column table `self._dct`: for each fixed key, one list
of columns (one column per detector index), each column holding one cell
per stored event (`None` cells for absent hits). -/
structure Dct where
  comp_time : List (List (Option PyNum))
  ard_time : List (List (Option PyNum))
  amplitude : List (List (Option PyNum))
  sipm_voltage : List (List (Option PyNum))
  dead_time : List (List (Option PyNum))
  temp : List (List (Option PyNum))
deriving DecidableEq, Repr

/-- Column list of `self._dct[key]`. -/
def Dct.get (d : Dct) : EKey → List (List (Option PyNum))
  | .comp_time => d.comp_time
  | .ard_time => d.ard_time
  | .amplitude => d.amplitude
  | .sipm_voltage => d.sipm_voltage
  | .dead_time => d.dead_time
  | .temp => d.temp

/-- `EventDataCollection` state: the column table, the construction
argument `detector_count`, and `_len` (the iterator index `_index` plays
no role in the modelled operations). -/
structure EventDataCollection where
  dct : Dct
  detector_count : Nat
  len : Nat
deriving DecidableEq, Repr

/-- `EventDataCollection.__init__(detector_count)`
(event_data_collection.py:24-33): every key maps to `detector_count`
empty columns; `_len = 0`. -/
def EventDataCollection.init (detector_count : Nat) : EventDataCollection :=
  { dct := { comp_time := List.replicate detector_count []
             ard_time := List.replicate detector_count []
             amplitude := List.replicate detector_count []
             sipm_voltage := List.replicate detector_count []
             dead_time := List.replicate detector_count []
             temp := List.replicate detector_count [] }
    detector_count := detector_count
    len := 0 }

/-- The cell appended for one entry of the event list:
`hit[key] if hit is not None else None`; `KeyError` when the key is
missing from a non-None hit. -/
def hitCell (hit : Option HitData) (k : EKey) : Except PyErr (Option PyNum) :=
  match hit with
  | none => .ok none
  | some h =>
    match h.get k with
    | none => .error .keyError
    | some v => .ok v

/-- `self._dct[key][index].append(cell)`: `IndexError` when `index` is
out of range of the column list. -/
def appendAt (cols : List (List (Option PyNum))) (i : Nat)
    (cell : Option PyNum) : Except PyErr (List (List (Option PyNum))) :=
  match cols[i]? with
  | none => .error .indexError
  | some col => .ok (cols.set i (col ++ [cell]))

/-- The inner loop of `add_event` for one key:
`for index, hit in enumerate(data): self._dct[key][index].append(...)`,
with `i` the running `enumerate` index. -/
def appendCells (k : EKey) : List (Option HitData) → Nat →
    List (List (Option PyNum)) → Except PyErr (List (List (Option PyNum)))
  | [], _, cols => .ok cols
  | hit :: rest, i, cols => do
    let cell ← hitCell hit k
    let cols' ← appendAt cols i cell
    appendCells k rest (i + 1) cols'

/-- `EventDataCollection.add_event(data)` (event_data_collection.py:39-47):
for each fixed key in order, appends one cell per entry of `data` to
that key's columns; afterwards `_len += 1`.  No validation of `data` is
performed beyond the exceptions the loop itself raises. -/
def EventDataCollection.add_event (c : EventDataCollection)
    (data : List (Option HitData)) : Except PyErr EventDataCollection := do
  let a ← appendCells .comp_time data 0 c.dct.comp_time
  let b ← appendCells .ard_time data 0 c.dct.ard_time
  let d ← appendCells .amplitude data 0 c.dct.amplitude
  let e ← appendCells .sipm_voltage data 0 c.dct.sipm_voltage
  let f ← appendCells .dead_time data 0 c.dct.dead_time
  let g ← appendCells .temp data 0 c.dct.temp
  pure { c with
         dct := { comp_time := a, ard_time := b, amplitude := d
                  sipm_voltage := e, dead_time := f, temp := g }
         len := c.len + 1 }

/-- `self._dct[key][port][index]` with Python `IndexError` on either
indexing step. -/
def cellAt (cols : List (List (Option PyNum))) (port index : Nat) :
    Except PyErr (Option PyNum) :=
  match cols[port]? with
  | none => .error .indexError
  | some col =>
    match col[index]? with
    | none => .error .indexError
    | some cell => .ok cell

/-- The per-port body of `get_event` (event_data_collection.py:49-60):
builds the dictionary of the six keys from the columns at `index`, then
yields `None` when the reconstructed `comp_time` cell is Python `None`,
else the dictionary (all six keys present). -/
def buildHit (d : Dct) (port index : Nat) : Except PyErr (Option HitData) := do
  let ct ← cellAt d.comp_time port index
  let ar ← cellAt d.ard_time port index
  let am ← cellAt d.amplitude port index
  let sv ← cellAt d.sipm_voltage port index
  let dt ← cellAt d.dead_time port index
  let tp ← cellAt d.temp port index
  if ct.isNone then
    pure none
  else
    pure (some { comp_time := some ct, ard_time := some ar
                 amplitude := some am, sipm_voltage := some sv
                 dead_time := some dt, temp := some tp })

/-- The `for port in range(self._detector_count)` loop of `get_event`,
accumulating the per-port results in order. -/
def getEventGo (d : Dct) (index : Nat) : List Nat →
    Except PyErr (List (Option HitData))
  | [] => .ok []
  | port :: rest => do
    let h ← buildHit d port index
    let tail ← getEventGo d index rest
    pure (h :: tail)

/-- `EventDataCollection.get_event(index)` (event_data_collection.py:49-60). -/
def EventDataCollection.get_event (c : EventDataCollection) (index : Nat) :
    Except PyErr (List (Option HitData)) :=
  getEventGo c.dct index (List.range c.detector_count)

/-- Number of non-None entries of an event list (the "entries" of the
sparse detector-index → hit mapping it encodes). -/
def entryCount (data : List (Option HitData)) : Nat :=
  (data.filter fun x => x.isSome).length

end PyWatch

namespace PyWatch

/-! ## DetectorPool (detector_pool.py)

The pool's per-hit window logic lives in `run_detector`
(detector_pool.py:124-166).  Two collaborators of that code are not
under `src/`: the `detector` module it imports (its `dt[-1]` is the hit
record just produced by `measurement()`) and the dict-like `EventData`
accumulator class an older `event_data_collection` provided.  Both are
modelled from the spec as noted on the definitions below. -/

/-- Modelled from the spec: the window accumulator `self._event_data`
is a "mapping<index, HitRecord>" (spec §3) whose dict-like class is
absent from `src/`.  It is represented as an insertion-ordered
association list with pairwise-distinct keys maintained by the dict
operations used in `run_detector` (insert-if-absent, clear, singleton
assignment); `keys()` enumerates the stored detector indices. -/
abbrev EventAcc := List (Nat × Hit)

/-- The keys of the accumulator dict, in insertion order. -/
def keysOf (a : EventAcc) : List Nat := a.map Prod.fst

/-- Exceptions observed by the pool run: a read/parse failure of some
detector (carrying an arbitrary code to tell failures apart), or the
`NameError` from evaluating the unbound name `c2`. -/
inductive Exc where
  | readErr (code : Nat)
  | nameErr
deriving DecidableEq, Repr

/-- One message sent through the callback pipe: a finalized event, or
the `"ERROR"` sentinel. -/
inductive Msg where
  | ev (e : EventAcc)
  | errorMsg
deriving DecidableEq, Repr

/-- One interaction of a source loop with its detector, in the order the
single-threaded event loop interleaves them: `await dt.measurement()`
either yields the next hit record (from source `i`) or raises. -/
inductive Inp where
  | hit (i : Nat) (h : Hit)
  | err (e : Exc)
deriving DecidableEq, Repr

/-- How a pool run ended: `done e` when every path returned normally
(`e` the first captured failure, `none` on clean completion), `raised e`
when an uncaught exception propagated out of the tasks into
`DetectorPool.run`'s outer handler. -/
inductive RunRes where
  | done (e : Option Exc)
  | raised (e : Exc)
deriving DecidableEq, Repr

/-- The state shared by the source loops of one `async_run` invocation:
`self._event_data`, `self._first_coincidence_hit_time`, the EventStore
`self._data` (modelled from the spec as the append-only ordered sequence
of finalized events, spec §4.3 — the pool calls an `add_event` of an
older store class absent from `src/`), `counted_hits`, `finished`, and
the messages sent down the callback pipe so far. -/
structure PoolSt where
  event_data : EventAcc
  first_time : Int
  data : List EventAcc
  counted : Nat
  finished : Bool
  sent : List Msg
deriving DecidableEq, Repr

/-- Pool state after `open()` on a fresh pool: cleared store, zero first
coincidence time, empty accumulator. -/
def initSt : PoolSt :=
  { event_data := [], first_time := 0, data := [], counted := 0,
    finished := false, sent := [] }

/-- The body of `run_detector` for one successfully measured hit `h`
from source `dt_index = i` (detector_pool.py:142-164):
within-threshold hits are merged first-hit-per-source-wins; an
out-of-threshold hit finalizes the accumulator when it holds more than
one key (send to the pipe when a callback is registered, append to the
store, increment `counted_hits`), sets `finished` when the target is
reached, and otherwise starts the new window at `h`. -/
def poolStep (threshold : Int) (hits : Nat) (cb : Bool) (i : Nat) (h : Hit)
    (st : PoolSt) : PoolSt :=
  if h.comp_time - st.first_time ≤ threshold then
    if (keysOf st.event_data).contains i then st
    else { st with event_data := st.event_data ++ [(i, h)] }
  else
    let st1 :=
      if 1 < (keysOf st.event_data).length then
        { st with
          sent := if cb then st.sent ++ [Msg.ev st.event_data] else st.sent
          data := st.data ++ [st.event_data]
          counted := st.counted + 1 }
      else st
    if st1.counted = hits then { st1 with finished := true }
    else { st1 with first_time := h.comp_time, event_data := [(i, h)] }

/-- The interleaved source loops of `async_run`
(detector_pool.py:124-185), driven by the sequence of detector
interactions: a hit runs `poolStep` and the loop breaks when `finished`
was set (target reached); a raised measurement error sets `finished` and
runs the handler `c2.send("ERROR")` — with a registered callback this
sends the sentinel and the loop returns `(counted_hits, exc)`, without
one the name `c2` is unbound and `NameError` propagates out of the task.
Stopping the trace at `finished` models a schedule where cancellation
takes effect before any further read completes; `runLoopFull` below
drops that assumption and lets the scheduler deliver straggler reads. -/
def runLoop (threshold : Int) (hits : Nat) (cb : Bool) :
    List Inp → PoolSt → PoolSt × RunRes
  | [], st => (st, .done none)
  | .err e :: _, st =>
    if cb then
      ({ st with finished := true, sent := st.sent ++ [Msg.errorMsg] },
       .done (some e))
    else
      ({ st with finished := true }, .raised .nameErr)
  | .hit i h :: rest, st =>
    let st' := poolStep threshold hits cb i h st
    if st'.finished then (st', .done none)
    else runLoop threshold hits cb rest st'

/-- `DetectorPool.run` (detector_pool.py:73-99) around one `async_run`
on a freshly opened pool: `result` starts as `(0, None)`; a normal
`async_run` return supplies `(counted_hits, exc)`; an exception escaping
`async_run` is caught by the outer handler, which keeps the stale count
`result[0] = 0` and stores the exception. -/
def poolRun (threshold : Int) (hits : Nat) (cb : Bool) (trace : List Inp) :
    Nat × Option Exc :=
  match runLoop threshold hits cb trace initSt with
  | (st, .done r) => (st.counted, r)
  | (_, .raised ex) => (0, some ex)

/-- `callback_executor` (detector_pool.py:110-119): `for _ in
range(hits)` receive one message; stop at the `"ERROR"` sentinel,
otherwise invoke the callback on the received event.  The returned list
is the sequence of events the callback was invoked on, in invocation
order (an exhausted message list models a blocked `recv`, which the
producer protocol never reaches). -/
def callback_executor : Nat → List Msg → List EventAcc
  | 0, _ => []
  | _ + 1, [] => []
  | _ + 1, .errorMsg :: _ => []
  | n + 1, .ev e :: rest => e :: callback_executor n rest

end PyWatch

namespace PyWatch

/-! ## Orchestrator (`measurement_from_script`, _measurement.py:136-154) -/

/-- The orchestrator loop state: cumulative `events_run`, the retry
budget `tries`, the previous invocation's count `last_event_count`
(initially `-1`), the most recent invocation's error, and whether the
loop aborted on an exhausted budget. -/
structure OrchSt where
  events_run : Nat
  tries : Int
  last_event_count : Int
  last_err : Option Exc
  aborted : Bool
deriving DecidableEq, Repr

/-- State before the first orchestrator iteration:
`events_run = 0`, `tries = 5`, `last_event_count = -1`. -/
def orchInit : OrchSt :=
  { events_run := 0, tries := 5, last_event_count := -1, last_err := none,
    aborted := false }

/-- The retry budget after one invocation returning `event_count = c`:
`if event_count == 0 and last_event_count == 0: tries -= 1`. -/
def orchTries (st : OrchSt) (c : Nat) : Int :=
  if c = 0 ∧ st.last_event_count = 0 then st.tries - 1 else st.tries

/-- The `while events_run < EVENT_COUNT` loop of
`measurement_from_script`, driven by the list of `pool.run` results
`(event_count, e)`: decrement the budget on two consecutive
zero-progress invocations, accumulate `events_run`, break with an abort
once `tries == 1`, else record `last_event_count` and continue. -/
def orchLoop (target : Nat) : List (Nat × Option Exc) → OrchSt → OrchSt
  | [], st => st
  | (c, e) :: rest, st =>
    if target ≤ st.events_run then st
    else
      let st' : OrchSt :=
        { st with tries := orchTries st c,
                  events_run := st.events_run + c, last_err := e }
      if st'.tries = 1 then { st' with aborted := true }
      else orchLoop target rest { st' with last_event_count := (c : Int) }

end PyWatch

namespace PyWatch

/-! ## Concrete inputs used by closed theorems and witnesses -/

/-- A hit whose device fields are zero and whose host timestamp is `t`. -/
def hAt (t : Int) : Hit :=
  { ard_time := 0, amplitude := 0, sipm_voltage := 0, dead_time := 0,
    temp := 0, comp_time := t }

/-- A run trace with threshold 10 in mind: sources 0 and 1 hit at 0 ms
and 5 ms, source 0 hits again at 100 ms (closing the first window and
finalizing one two-detector event), then a read fails with error
code 7. -/
def traceC4 : List Inp :=
  [.hit 0 (hAt 0), .hit 1 (hAt 5), .hit 0 (hAt 100), .err (.readErr 7)]

/-- A mid-run pool state: one window open with a single hit of source 0. -/
def stW : PoolSt :=
  { event_data := [(0, hAt 0)], first_time := 0, data := [], counted := 0,
    finished := false, sent := [] }

/-- A well-formed device line: echo token, then int 5, int 1, float 7,
int 2, float 9. -/
def lnC6 : List Tok :=
  [.junkTok, .intTok 5, .intTok 1, .floatTok 7, .intTok 2, .floatTok 9]

/-- A complete hit dictionary with a non-None `comp_time` (its `temp`
value is Python `None`, which the store must preserve). -/
def goodHit : HitData :=
  { comp_time := some (some (.pint 3)), ard_time := some (some (.pint 4)),
    amplitude := some (some (.pint 5)),
    sipm_voltage := some (some (.pfloat 7)),
    dead_time := some (some (.pint 6)), temp := some none }

/-! ## Claim statements refuted below, formalized as stated -/

/-- Claim C5 as stated: `add_event` fails unless the event is a
non-empty detector-index → hit mapping with at least 2 entries, and
succeeds with `len` incremented for every such mapping. -/
def addEventClaim : Prop :=
  ∀ (c : EventDataCollection) (data : List (Option HitData)),
    (entryCount data < 2 → (c.add_event data).isOk = false) ∧
    (2 ≤ entryCount data →
      ∃ c', c.add_event data = .ok c' ∧ c'.len = c.len + 1)

/-- Claim C6 as stated: `measurement` raises on a closed port and on a
non-decomposing line, and a successful hit carries `comp_time = now`
and has `ard_time`, `amplitude`, `sipm_voltage`, `dead_time`, `temp`
equal to the values parsed from columns 1..5. -/
def measurementClaim : Prop :=
  ∀ (is_open : Bool) (start_time : Int) (ln : List Tok) (now : Int),
    (is_open = false →
      measurement is_open start_time ln now = .error .portNotOpen) ∧
    (is_open = true → line_decomposes ln = false →
      measurement is_open start_time ln now = .error .parseError) ∧
    (∀ h : Hit, measurement is_open start_time ln now = .ok h →
      h.comp_time = now ∧
      (ln[1]?).bind pyInt = some h.ard_time ∧
      (ln[2]?).bind pyInt = some h.amplitude ∧
      (ln[3]?).bind pyFloat = some h.sipm_voltage ∧
      (ln[4]?).bind pyInt = some h.dead_time ∧
      (ln[5]?).bind pyFloat = some h.temp)

/-- The cell value `add_event` stores for one entry of the event list,
for dictionaries holding the accessed key: `None` for an absent hit,
else the value of `hit[key]`. -/
def cellVal (x : Option HitData) (k : EKey) : Option PyNum :=
  match x with
  | none => none
  | some hd => (hd.get k).getD none

/-- The column table of one key after a successful `add_event`: each of
the first `data.length` columns gains that entry's cell, the remaining
columns are untouched. -/
def appendedCols (cols : List (List (Option PyNum)))
    (data : List (Option HitData)) (k : EKey) :
    List (List (Option PyNum)) :=
  List.zipWith (fun col x => col ++ [cellVal x k]) cols data ++
    cols.drop data.length

/-- The whole column table after a successful `add_event`. -/
def appendedDct (d : Dct) (data : List (Option HitData)) : Dct :=
  { comp_time := appendedCols d.comp_time data .comp_time
    ard_time := appendedCols d.ard_time data .ard_time
    amplitude := appendedCols d.amplitude data .amplitude
    sipm_voltage := appendedCols d.sipm_voltage data .sipm_voltage
    dead_time := appendedCols d.dead_time data .dead_time
    temp := appendedCols d.temp data .temp }

/-- The interleaved source loops of `async_run` with a registered
callback, without assuming cancellation is instantaneous: the trace is
the merged sequence of reads the event loop actually delivers to the
tasks before cancellation takes effect.  `run_detector`'s `while True`
never checks `finished`, and the terminal branch
(detector_pool.py:157-160) breaks without resetting the accumulator or
the window start, so a source whose read already completed may run one
more full step after another source reached the target (or failed) —
which inputs appear after `finished` is schedule-dependent, so the model
processes an arbitrary trace. -/
def runLoopFull (threshold : Int) (hits : Nat) : List Inp → PoolSt → PoolSt
  | [], st => st
  | .err _ :: rest, st =>
    runLoopFull threshold hits rest
      { st with finished := true, sent := st.sent ++ [Msg.errorMsg] }
  | .hit i h :: rest, st =>
    runLoopFull threshold hits rest (poolStep threshold hits true i h st)

/-- The event carried by a pipe message, if any. -/
def msgEvent? : Msg → Option EventAcc
  | .ev e => some e
  | .errorMsg => none

/-- A schedule with one straggler: target `hits = 1`, threshold 10;
sources 0 and 1 hit at 0 ms and 5 ms, source 0's hit at 100 ms closes
the window, finalizes the pair and reaches the target, and source 1's
already-completed read at 105 ms runs one more step before
cancellation. -/
def traceC7 : List Inp :=
  [.hit 0 (hAt 0), .hit 1 (hAt 5), .hit 0 (hAt 100), .hit 1 (hAt 105)]

/-- Claim C7 as stated, over the delivered-reads model: for every run
with a registered callback, the consumer's invocation list equals the
finalized-event list — the callback runs exactly once per finalized
event, in emission order. -/
def callbackExactlyOnceClaim : Prop :=
  ∀ (threshold : Int) (hits : Nat) (trace : List Inp), 1 ≤ hits →
    callback_executor hits (runLoopFull threshold hits trace initSt).sent =
      (runLoopFull threshold hits trace initSt).data

end PyWatch

namespace PyWatch

/-! ## Theorems -/

/-- C2: for an incoming hit `h` from source `i` with
`h.comp_time - window_start_time <= threshold`, the step discards `h`
and leaves the state unchanged when `i` already has an accumulator
entry, and otherwise only sets `accumulator[i] = h`; in both cases
nothing is finalized and `window_start_time` is unchanged. -/
theorem C2_within_threshold_step (threshold : Int) (hits : Nat) (cb : Bool)
    (i : Nat) (h : Hit) (st : PoolSt)
    (hle : h.comp_time - st.first_time ≤ threshold) :
    ((keysOf st.event_data).contains i = true →
      poolStep threshold hits cb i h st = st) ∧
    ((keysOf st.event_data).contains i = false →
      poolStep threshold hits cb i h st =
        { st with event_data := st.event_data ++ [(i, h)] }) := by
  constructor <;> intro hc
  · have hm : i ∈ keysOf st.event_data := by simpa using hc
    simp [poolStep, hle, hm]
  · have hm : i ∉ keysOf st.event_data := by simpa using hc
    simp [poolStep, hle, hm]

/-- C2 witness: a second source-1 hit at 5 ms inside the open window of
`stW` is merged as a fresh accumulator entry. -/
theorem C2_within_threshold_step_witness :
    poolStep 10 3 true 1 (hAt 5) stW =
      { stW with event_data := stW.event_data ++ [(1, hAt 5)] } :=
  (C2_within_threshold_step 10 3 true 1 (hAt 5) stW (by decide)).2 (by decide)

/-- C3: an incoming hit `h` from source `i` outside the threshold, when
the step does not reach the run target, ends with a fresh window holding
exactly the closing hit: `window_start_time = h.comp_time` and
`accumulator = {i: h}`. -/
theorem C3_window_flip_reset (threshold : Int) (hits : Nat) (cb : Bool)
    (i : Nat) (h : Hit) (st : PoolSt)
    (hgt : threshold < h.comp_time - st.first_time)
    (hne : (if 1 < (keysOf st.event_data).length then st.counted + 1
            else st.counted) ≠ hits) :
    (poolStep threshold hits cb i h st).first_time = h.comp_time ∧
    (poolStep threshold hits cb i h st).event_data = [(i, h)] := by
  have hnle : ¬ h.comp_time - st.first_time ≤ threshold := not_le.mpr hgt
  by_cases h1 : 1 < (keysOf st.event_data).length <;>
    simp [h1] at hne <;> simp [poolStep, hnle, h1, hne]

/-- C3 witness: the source-0 hit at 100 ms closes the singleton window
of `stW` (target 3 not reached) and opens a new one containing it. -/
theorem C3_window_flip_reset_witness :
    (poolStep 10 3 true 0 (hAt 100) stW).first_time = 100 ∧
    (poolStep 10 3 true 0 (hAt 100) stW).event_data = [(0, hAt 100)] :=
  C3_window_flip_reset 10 3 true 0 (hAt 100) stW (by decide) (by decide)

/-- C4 (code bug): on `traceC4` — one finalized two-detector event, then
a read failure — the run loop has appended 1 event, yet without a
registered callback the `c2.send("ERROR")` in the error handler
evaluates the unbound name `c2`, the `NameError` escapes `async_run`,
and `run()` answers `(0, NameError)` instead of `(1, read error)`; with
a callback registered the same trace answers `(1, read error)` as the
claim and the `run()` docstring describe. -/
theorem C4_failure_count_eval :
    (runLoop 10 3 false traceC4 initSt).1.data.length = 1 ∧
    poolRun 10 3 false traceC4 = (0, some Exc.nameErr) ∧
    poolRun 10 3 true traceC4 = (1, some (Exc.readErr 7)) := by decide

/-- C5 counterexample: `add_event` performs no shape validation — on a
fresh 2-detector collection, the event list `[None, None]` has zero
entries, yet `add_event` succeeds (so the claim's "raises unless ≥ 2
entries" is false at that input). -/
theorem C5_counterexample : ¬ addEventClaim := by
  intro hcl
  exact absurd
    ((hcl (EventDataCollection.init 2) [none, none]).1 (by decide))
    (by decide)

/-- C6 counterexample: on an open detector with `start_time = 900` and
the well-formed line `lnC6` (column 1 is `5`), `measurement` succeeds
with `ard_time = 905`, not the parsed column value `5`: the stored
`ard_time` is offset by the source's `start_time`. -/
theorem C6_counterexample : ¬ measurementClaim := by
  intro hcl
  have h := ((hcl true 900 lnC6 1000).2.2
    { ard_time := 905, amplitude := 1, sipm_voltage := 7, dead_time := 2,
      temp := 9, comp_time := 1000 } (by rfl)).2.1
  exact absurd h (by decide)

/-- C9: the orchestrator's retry budget starts at 5; it is decremented
exactly on an invocation that makes zero progress right after another
zero-progress invocation (a progressing invocation, or one following
progress, never decrements); and the instant the budget reaches 1 the
loop aborts, keeping the accumulated partial count and the aborting
invocation's error and ignoring every further invocation. -/
theorem C9_retry_budget :
    orchInit.tries = 5 ∧
    (∀ (st : OrchSt) (c : Nat), c = 0 ∧ st.last_event_count = 0 →
      orchTries st c = st.tries - 1) ∧
    (∀ (st : OrchSt) (c : Nat), 0 < c → orchTries st c = st.tries) ∧
    (∀ (st : OrchSt) (c : Nat), st.last_event_count ≠ 0 →
      orchTries st c = st.tries) ∧
    (∀ (target : Nat) (st : OrchSt) (c : Nat) (e : Option Exc)
       (rest : List (Nat × Option Exc)),
      st.events_run < target → orchTries st c = 1 →
      orchLoop target ((c, e) :: rest) st =
        { st with tries := 1, events_run := st.events_run + c,
                  last_err := e, aborted := true }) ∧
    (∀ (target : Nat) (st : OrchSt) (c : Nat) (e : Option Exc)
       (rest : List (Nat × Option Exc)),
      st.events_run < target → orchTries st c ≠ 1 →
      orchLoop target ((c, e) :: rest) st =
        orchLoop target rest
          { st with tries := orchTries st c,
                    events_run := st.events_run + c, last_err := e,
                    last_event_count := (c : Int) }) := by
  refine ⟨rfl, ?_, ?_, ?_, ?_, ?_⟩
  · rintro st c ⟨hc, hl⟩; simp [orchTries, hc, hl]
  · intro st c hc; simp [orchTries, Nat.pos_iff_ne_zero.mp hc]
  · intro st c hl; simp [orchTries, hl]
  · intro target st c e rest h1 h2
    simp [orchLoop, not_le.mpr h1, h2]
  · intro target st c e rest h1 h2
    simp [orchLoop, not_le.mpr h1, h2]

/-- C9 witness: with budget 2 and a zero-progress previous invocation,
another zero-progress invocation drops the budget to 1 and the loop
aborts at once, ignoring a later successful invocation. -/
theorem C9_retry_budget_witness :
    orchLoop 3 [(0, none), (5, none)]
      { events_run := 0, tries := 2, last_event_count := 0,
        last_err := none, aborted := false } =
      { events_run := 0, tries := 1, last_event_count := 0,
        last_err := none, aborted := true } := by
  have h := C9_retry_budget.2.2.2.2.1 3
    { events_run := 0, tries := 2, last_event_count := 0,
      last_err := none, aborted := false }
    0 none [(5, none)] (by decide) (by decide)
  simpa using h

end PyWatch

namespace PyWatch

/-- Inserting an absent key into the accumulator keeps its keys
pairwise distinct. -/
theorem nodup_keys_insert (a : EventAcc) (i : Nat) (h : Hit)
    (hnd : (keysOf a).Nodup) (hc : i ∉ keysOf a) :
    (keysOf (a ++ [(i, h)])).Nodup := by
  simp only [keysOf, List.map_append, List.map_cons, List.map_nil]
  refine List.Nodup.append hnd (List.nodup_singleton i) ?_
  intro x hx hx'
  simp only [List.mem_singleton] at hx'
  exact hc (hx' ▸ hx)

/-- One `poolStep` preserves distinctness of the accumulator keys and
the store invariant that every stored event has at least two distinct
detector indices. -/
theorem poolStep_window_invariant (threshold : Int) (hits : Nat) (cb : Bool)
    (i : Nat) (h : Hit) (st : PoolSt)
    (hnd : (keysOf st.event_data).Nodup)
    (hdata : ∀ ev ∈ st.data, 2 ≤ (keysOf ev).length ∧ (keysOf ev).Nodup) :
    (keysOf (poolStep threshold hits cb i h st).event_data).Nodup ∧
    ∀ ev ∈ (poolStep threshold hits cb i h st).data,
      2 ≤ (keysOf ev).length ∧ (keysOf ev).Nodup := by
  unfold poolStep
  by_cases hle : h.comp_time - st.first_time ≤ threshold
  · by_cases hc : i ∈ keysOf st.event_data
    · simpa [hle, hc] using ⟨hnd, hdata⟩
    · exact ⟨by simpa [hle, hc] using nodup_keys_insert st.event_data i h hnd hc,
            by simpa [hle, hc] using hdata⟩
  · by_cases h1 : 1 < (keysOf st.event_data).length
    · by_cases h2 : st.counted + 1 = hits
      · refine ⟨by simpa [hle, h1, h2] using hnd, ?_⟩
        intro ev hev
        have hmem : ev ∈ st.data ∨ ev = st.event_data := by
          simpa [hle, h1, h2] using hev
        exact hmem.elim (fun hm => hdata ev hm) (fun he => he ▸ ⟨h1, hnd⟩)
      · refine ⟨?_, ?_⟩
        · have hg : (keysOf [(i, h)]).Nodup := by simp [keysOf]
          simpa [hle, h1, h2] using hg
        · intro ev hev
          have hmem : ev ∈ st.data ∨ ev = st.event_data := by
            simpa [hle, h1, h2] using hev
          exact hmem.elim (fun hm => hdata ev hm) (fun he => he ▸ ⟨h1, hnd⟩)
    · by_cases h2 : st.counted = hits
      · exact ⟨by simpa [hle, h1, h2] using hnd,
              fun ev hev => hdata ev (by simpa [hle, h1, h2] using hev)⟩
      · refine ⟨?_, ?_⟩
        · have hg : (keysOf [(i, h)]).Nodup := by simp [keysOf]
          simpa [hle, h1, h2] using hg
        · intro ev hev
          exact hdata ev (by simpa [hle, h1, h2] using hev)

/-- C1: along any run-loop execution whose starting accumulator has
distinct keys and whose store already satisfies it, every event in the
EventStore has contributions from at least 2 distinct detector indices
(its key list has length at least 2 and is pairwise distinct); in
particular no singleton window is ever stored. -/
theorem C1_no_singleton_stored (threshold : Int) (hits : Nat) (cb : Bool)
    (trace : List Inp) (st : PoolSt)
    (hnd : (keysOf st.event_data).Nodup)
    (hdata : ∀ ev ∈ st.data, 2 ≤ (keysOf ev).length ∧ (keysOf ev).Nodup) :
    ∀ ev ∈ (runLoop threshold hits cb trace st).1.data,
      2 ≤ (keysOf ev).length ∧ (keysOf ev).Nodup := by
  induction trace generalizing st with
  | nil => simpa [runLoop] using hdata
  | cons inp rest ih =>
    cases inp with
    | err e => cases cb <;> simpa [runLoop] using hdata
    | hit i h =>
      have hinv := poolStep_window_invariant threshold hits cb i h st hnd hdata
      by_cases hf : (poolStep threshold hits cb i h st).finished
      · simpa [runLoop, hf] using hinv.2
      · simpa [runLoop, hf] using ih _ hinv.1 hinv.2

/-- C1 witness: running `traceC4` without a callback stores exactly the
event `{0: hit@0, 1: hit@5}`, and the theorem instantiated at it shows
its two detector indices are distinct. -/
theorem C1_no_singleton_stored_witness :
    2 ≤ (keysOf [(0, hAt 0), (1, hAt 5)]).length ∧
    (keysOf [(0, hAt 0), (1, hAt 5)]).Nodup :=
  C1_no_singleton_stored 10 3 false traceC4 initSt (by decide) (by decide)
    [(0, hAt 0), (1, hAt 5)] (by decide)

end PyWatch

namespace PyWatch

/-- The executor's invocation list is always a take-prefix of the
queued events, of length at most `hits`. -/
theorem callback_executor_prefix (hits : Nat) (msgs : List Msg) :
    ∃ k, k ≤ hits ∧
      callback_executor hits msgs = (msgs.filterMap msgEvent?).take k := by
  induction msgs generalizing hits with
  | nil =>
    exact ⟨0, Nat.zero_le _, by cases hits <;> simp [callback_executor]⟩
  | cons m rest ih =>
    cases hits with
    | zero => exact ⟨0, le_refl 0, by simp [callback_executor]⟩
    | succ n =>
      cases m with
      | errorMsg =>
        exact ⟨0, Nat.zero_le _, by simp [callback_executor]⟩
      | ev e =>
        obtain ⟨k, hk, he⟩ := ih n
        exact ⟨k + 1, by omega,
          by simp [callback_executor, msgEvent?, he]⟩

/-- With a registered callback, one `poolStep` sends an event down the
pipe exactly when it stores it: the pipe's event messages stay equal to
the stored events, in order. -/
theorem poolStep_filter_sent (threshold : Int) (hits : Nat) (i : Nat)
    (h : Hit) (st : PoolSt)
    (hs : st.sent.filterMap msgEvent? = st.data) :
    (poolStep threshold hits true i h st).sent.filterMap msgEvent? =
      (poolStep threshold hits true i h st).data := by
  unfold poolStep
  by_cases hle : h.comp_time - st.first_time ≤ threshold
  · by_cases hc : i ∈ keysOf st.event_data <;> simp [hle, hc, hs]
  · by_cases h1 : 1 < (keysOf st.event_data).length
    · by_cases h2 : st.counted + 1 = hits <;>
        simp [hle, h1, h2, msgEvent?, hs]
    · by_cases h2 : st.counted = hits <;> simp [hle, h1, h2, hs]

/-- Along any delivered-reads trace the pipe's event messages equal the
stored events, in order: the producer sends each finalized event
exactly once. -/
theorem runLoopFull_filter_sent (threshold : Int) (hits : Nat)
    (trace : List Inp) (st : PoolSt)
    (hs : st.sent.filterMap msgEvent? = st.data) :
    (runLoopFull threshold hits trace st).sent.filterMap msgEvent? =
      (runLoopFull threshold hits trace st).data := by
  induction trace generalizing st with
  | nil => simpa [runLoopFull] using hs
  | cons inp rest ih =>
    cases inp with
    | err e =>
      simp only [runLoopFull]
      exact ih _ (by simp [msgEvent?, hs])
    | hit i h =>
      simp only [runLoopFull]
      exact ih _ (poolStep_filter_sent threshold hits i h st hs)

/-- C7 counterexample: on the straggler schedule `traceC7` with target
1, source 1's read delivered after the target is reached re-finalizes
the stale two-key accumulator (the terminal branch of
detector_pool.py:157-160 skips the reset), so 2 events are stored and
sent while the `range(hits)` executor invokes the callback only once —
not exactly once per finalized event. -/
theorem C7_counterexample : ¬ callbackExactlyOnceClaim := by
  intro hcl
  exact absurd (hcl 10 1 traceC7 (by decide)) (by decide)

/-- C7 (amended): with a registered callback, every finalized event is
sent down the pipe exactly once, in emission order, and the consumer
invokes the callback on a take-prefix of the finalized events — in
order, exactly once per event of that prefix — at most `hits` times;
the prefix is the whole store exactly on schedules with no straggler
finalization past the target or the error sentinel. -/
theorem C7_amended_callback_prefix (threshold : Int) (hits : Nat)
    (trace : List Inp) :
    (runLoopFull threshold hits trace initSt).sent.filterMap msgEvent? =
      (runLoopFull threshold hits trace initSt).data ∧
    ∃ k, k ≤ hits ∧
      callback_executor hits (runLoopFull threshold hits trace initSt).sent =
        (runLoopFull threshold hits trace initSt).data.take k := by
  have hlock := runLoopFull_filter_sent threshold hits trace initSt rfl
  refine ⟨hlock, ?_⟩
  obtain ⟨k, hk, he⟩ := callback_executor_prefix hits
    (runLoopFull threshold hits trace initSt).sent
  exact ⟨k, hk, by rw [he, hlock]⟩

end PyWatch

namespace PyWatch

/-- Looking up the position right after a prefix. -/
theorem getElem?_append_cons {α : Type _} (pre : List α) (a : α) (l : List α) :
    (pre ++ a :: l)[pre.length]? = some a := by
  induction pre with
  | nil => simp
  | cons b pre ih => simpa using ih

/-- Setting the position right after a prefix. -/
theorem set_append_cons {α : Type _} (pre : List α) (a b : α) (l : List α) :
    (pre ++ a :: l).set pre.length b = pre ++ b :: l := by
  induction pre with
  | nil => rfl
  | cons c pre ih => simp [ih]

/-- `appendAt` appends the cell to the column right after a prefix. -/
theorem appendAt_pre (pre : List (List (Option PyNum)))
    (col : List (Option PyNum)) (cs : List (List (Option PyNum)))
    (cell : Option PyNum) :
    appendAt (pre ++ col :: cs) pre.length cell =
      .ok (pre ++ (col ++ [cell]) :: cs) := by
  simp only [appendAt, getElem?_append_cons, set_append_cons]

/-- On a hit dictionary holding every key it is asked for, `hitCell`
returns the stored cell value. -/
theorem hitCell_complete (x : Option HitData) (k : EKey)
    (hx : ∀ hd, x = some hd → hd.complete = true) :
    hitCell x k = .ok (cellVal x k) := by
  cases x with
  | none => rfl
  | some hd =>
    have hc := hx hd rfl
    simp only [HitData.complete, Bool.and_eq_true] at hc
    have hk : (hd.get k).isSome = true := by
      cases k <;> simp [HitData.get] <;> tauto
    obtain ⟨v, hv⟩ := Option.isSome_iff_exists.mp hk
    simp [hitCell, cellVal, hv]

/-- Binding a successful `Except` value reduces to the continuation. -/
theorem exceptBind_ok {e a b : Type _} (v : a) (f : a → Except e b) :
    (do let x ← Except.ok v; f x) = f v := rfl

/-- The inner `add_event` loop, started after a prefix of untouched
columns, appends one cell per event entry to the following columns and
leaves the rest alone. -/
theorem appendCells_spec (k : EKey) (data : List (Option HitData))
    (pre cs : List (List (Option PyNum)))
    (hcomp : ∀ x ∈ data, ∀ hd, x = some hd → hd.complete = true)
    (hlen : data.length ≤ cs.length) :
    appendCells k data pre.length (pre ++ cs) =
      .ok (pre ++ (List.zipWith (fun col x => col ++ [cellVal x k]) cs data ++
        cs.drop data.length)) := by
  induction data generalizing pre cs with
  | nil => simp [appendCells]
  | cons x rest ih =>
    cases cs with
    | nil => simp at hlen
    | cons col cs' =>
      have hcell : hitCell x k = .ok (cellVal x k) :=
        hitCell_complete x k (fun hd hhd => hcomp x (by simp) hd hhd)
      have happ := appendAt_pre pre col cs' (cellVal x k)
      have hrec := ih (pre ++ [col ++ [cellVal x k]]) cs'
        (fun y hy hd hhd => hcomp y (by simp [hy]) hd hhd)
        (by simpa using hlen)
      simp only [appendCells, hcell, happ, exceptBind_ok]
      simpa [List.append_assoc] using hrec

/-- The inner `add_event` loop from index 0 produces the appended
column table. -/
theorem appendCells_ok (k : EKey) (data : List (Option HitData))
    (cols : List (List (Option PyNum)))
    (hcomp : ∀ x ∈ data, ∀ hd, x = some hd → hd.complete = true)
    (hlen : data.length ≤ cols.length) :
    appendCells k data 0 cols = .ok (appendedCols cols data k) := by
  simpa [appendedCols] using appendCells_spec k data [] cols hcomp hlen

/-- A successful `add_event`: every key's columns gain the event's
cells and `_len` is incremented. -/
theorem add_event_ok (c : EventDataCollection) (data : List (Option HitData))
    (hcomp : ∀ x ∈ data, ∀ hd, x = some hd → hd.complete = true)
    (hlen : ∀ k : EKey, data.length ≤ (c.dct.get k).length) :
    c.add_event data =
      .ok { dct := appendedDct c.dct data
            detector_count := c.detector_count
            len := c.len + 1 } := by
  simp [EventDataCollection.add_event, appendedDct,
    appendCells_ok .comp_time data c.dct.comp_time hcomp (hlen .comp_time),
    appendCells_ok .ard_time data c.dct.ard_time hcomp (hlen .ard_time),
    appendCells_ok .amplitude data c.dct.amplitude hcomp (hlen .amplitude),
    appendCells_ok .sipm_voltage data c.dct.sipm_voltage hcomp
      (hlen .sipm_voltage),
    appendCells_ok .dead_time data c.dct.dead_time hcomp (hlen .dead_time),
    appendCells_ok .temp data c.dct.temp hcomp (hlen .temp), exceptBind_ok]

/-- C5 (amended): `add_event` validates nothing about the number of
entries — for every event list of length at most `detector_count` whose
non-None entries hold all six keys (including the empty and all-None
lists), it succeeds and increments the length by exactly 1. -/
theorem C5_amended_add_event (c : EventDataCollection)
    (data : List (Option HitData))
    (hlen : data.length ≤ c.detector_count)
    (hwf : ∀ k : EKey, (c.dct.get k).length = c.detector_count)
    (hcomp : ∀ x ∈ data, ∀ hd, x = some hd → hd.complete = true) :
    ∃ c', c.add_event data = .ok c' ∧ c'.len = c.len + 1 :=
  ⟨_, add_event_ok c data hcomp
    (fun k => le_of_le_of_eq hlen (hwf k).symm), rfl⟩

/-- C5 amended witness: on a fresh 2-detector collection, the event
list with one complete hit and one absent hit is appended with the
length rising from 0 to 1. -/
theorem C5_amended_add_event_witness :
    ∃ c', (EventDataCollection.init 2).add_event [some goodHit, none] =
        .ok c' ∧ c'.len = (EventDataCollection.init 2).len + 1 :=
  C5_amended_add_event (EventDataCollection.init 2) [some goodHit, none]
    (by decide) (fun k => by cases k <;> rfl)
    (by
      intro x hx hd hhd
      fin_cases hx
      · cases hhd; rfl
      · cases hhd)

end PyWatch

namespace PyWatch

/-- Indexing a `zipWith` of two lists. -/
theorem zipWith_getElem? {α β γ : Type _} (f : α → β → γ) (l₁ : List α)
    (l₂ : List β) (j : Nat) :
    (List.zipWith f l₁ l₂)[j]? =
      (l₁[j]?).bind fun a => (l₂[j]?).map fun b => f a b := by
  induction l₁ generalizing l₂ j with
  | nil => simp
  | cons a t ih =>
    cases l₂ with
    | nil => simp
    | cons b t2 =>
      cases j with
      | zero => simp
      | succ n => simpa using ih t2 n

/-- After `add_event`, looking up column `j` of a key's table at the
previous length yields the cell the event stored there. -/
theorem cellAt_appended (cols : List (List (Option PyNum)))
    (data : List (Option HitData)) (k : EKey) (n j : Nat)
    (hlen : data.length = cols.length) (hj : j < data.length)
    (hcol : ∀ col ∈ cols, col.length = n) :
    cellAt (appendedCols cols data k) j n = .ok (cellVal data[j] k) := by
  have hcj : j < cols.length := hlen ▸ hj
  have hd0 : cols.drop data.length = [] := by
    rw [hlen]; exact List.drop_length cols
  have hcjl : (cols[j]).length = n := hcol _ (List.getElem_mem hcj)
  have h1 : (appendedCols cols data k)[j]? =
      some (cols[j] ++ [cellVal data[j] k]) := by
    rw [appendedCols, hd0, List.append_nil, zipWith_getElem?,
      List.getElem?_eq_getElem hcj, List.getElem?_eq_getElem hj]
    rfl
  have h2 : (cols[j] ++ [cellVal data[j] k])[n]? =
      some (cellVal data[j] k) := by
    rw [← hcjl]; exact getElem?_append_cons (cols[j]) _ []
  simp [cellAt, h1, h2]

end PyWatch

namespace PyWatch

/-- The `Except` monad's `pure` is `Except.ok`. -/
theorem exceptPure_ok {e a : Type _} (v : a) :
    (pure v : Except e a) = Except.ok v := rfl

/-- On a complete hit dictionary, wrapping the defaulted lookup back in
`some` recovers the stored entry. -/
theorem complete_some_getD (hd : HitData) (k : EKey)
    (hc : hd.complete = true) :
    some ((hd.get k).getD none) = hd.get k := by
  simp only [HitData.complete, Bool.and_eq_true] at hc
  have hk : (hd.get k).isSome = true := by
    cases k <;> simp [HitData.get] <;> tauto
  obtain ⟨v, hv⟩ := Option.isSome_iff_exists.mp hk
  simp [hv]

/-- After `add_event` of a shape-correct event list, rebuilding the hit
of port `j` at the previous length recovers the original entry. -/
theorem buildHit_roundtrip (d : Dct) (data : List (Option HitData))
    (n j : Nat)
    (hlen : ∀ k : EKey, data.length = (d.get k).length)
    (hcol : ∀ k : EKey, ∀ col ∈ d.get k, col.length = n)
    (hj : j < data.length)
    (hx : ∀ hd, data[j] = some hd →
      hd.complete = true ∧ hd.comp_time ≠ some none) :
    buildHit (appendedDct d data) j n = .ok data[j] := by
  have e1 := cellAt_appended d.comp_time data .comp_time n j
    (hlen .comp_time) hj (hcol .comp_time)
  have e2 := cellAt_appended d.ard_time data .ard_time n j
    (hlen .ard_time) hj (hcol .ard_time)
  have e3 := cellAt_appended d.amplitude data .amplitude n j
    (hlen .amplitude) hj (hcol .amplitude)
  have e4 := cellAt_appended d.sipm_voltage data .sipm_voltage n j
    (hlen .sipm_voltage) hj (hcol .sipm_voltage)
  have e5 := cellAt_appended d.dead_time data .dead_time n j
    (hlen .dead_time) hj (hcol .dead_time)
  have e6 := cellAt_appended d.temp data .temp n j
    (hlen .temp) hj (hcol .temp)
  simp only [buildHit, appendedDct, e1, e2, e3, e4, e5, e6, exceptBind_ok]
  cases hdj : data[j] with
  | none => simp [cellVal, exceptPure_ok]
  | some hd =>
    obtain ⟨hc, hne⟩ := hx hd hdj
    have hct : hd.get .comp_time = hd.comp_time := rfl
    obtain ⟨cv, hcv⟩ := Option.isSome_iff_exists.mp
      (by simp only [HitData.complete, Bool.and_eq_true] at hc; tauto :
        (hd.comp_time).isSome = true)
    obtain ⟨w, rfl⟩ : ∃ w, cv = some w := by
      cases cv with
      | none => exact absurd hcv hne
      | some w => exact ⟨w, rfl⟩
    have g1 := complete_some_getD hd .comp_time hc
    have g2 := complete_some_getD hd .ard_time hc
    have g3 := complete_some_getD hd .amplitude hc
    have g4 := complete_some_getD hd .sipm_voltage hc
    have g5 := complete_some_getD hd .dead_time hc
    have g6 := complete_some_getD hd .temp hc
    simp only [cellVal, HitData.get] at g1 g2 g3 g4 g5 g6 ⊢
    simp [hcv, g1, g2, g3, g4, g5, g6, exceptPure_ok]
    cases hd
    simp_all [HitData.get, exceptPure_ok]

end PyWatch

namespace PyWatch

/-- The `get_event` port loop collects one reconstructed hit per port,
in port order. -/
theorem getEventGo_map (d : Dct) (idx : Nat) (ports : List Nat)
    (g : Nat → Option HitData)
    (hp : ∀ p ∈ ports, buildHit d p idx = .ok (g p)) :
    getEventGo d idx ports = .ok (ports.map g) := by
  induction ports with
  | nil => rfl
  | cons p ps ih =>
    have h1 := hp p (by simp)
    have h2 := ih (fun q hq => hp q (by simp [hq]))
    simp [getEventGo, h1, h2, exceptBind_ok, exceptPure_ok]

/-- Reading a list back by indices reproduces it. -/
theorem map_getD_range {α : Type _} (l : List (Option α)) :
    (List.range l.length).map (fun j => l.getD j none) = l := by
  apply List.ext_getElem
  · simp
  · intro i h1 h2
    simp [List.getD_eq_getElem?_getD, List.getElem?_eq_getElem h2]

/-- C10: on a well-formed collection (each key holds `detector_count`
columns of length `len`), adding an event list of length
`detector_count` whose entries are `None` or complete six-key
dictionaries with non-None `comp_time`, then reading the event at the
pre-call length, returns exactly the added list. -/
theorem C10_roundtrip (c : EventDataCollection)
    (data : List (Option HitData))
    (hwf : ∀ k : EKey, (c.dct.get k).length = c.detector_count)
    (hcols : ∀ k : EKey, ∀ col ∈ c.dct.get k, col.length = c.len)
    (hlen : data.length = c.detector_count)
    (hx : ∀ x ∈ data, ∀ hd, x = some hd →
      hd.complete = true ∧ hd.comp_time ≠ some none) :
    ∃ c', c.add_event data = .ok c' ∧ c'.get_event c.len = .ok data := by
  have hcomp : ∀ x ∈ data, ∀ hd, x = some hd → hd.complete = true :=
    fun x hxm hd hhd => (hx x hxm hd hhd).1
  have hadd := add_event_ok c data hcomp
    (fun k => le_of_le_of_eq (le_of_eq hlen) (hwf k).symm)
  refine ⟨_, hadd, ?_⟩
  show EventDataCollection.get_event
    { dct := appendedDct c.dct data, detector_count := c.detector_count,
      len := c.len + 1 } c.len = .ok data
  unfold EventDataCollection.get_event
  have hports : ∀ p ∈ List.range c.detector_count,
      buildHit (appendedDct c.dct data) p c.len =
        .ok (data.getD p none) := by
    intro p hp
    have hpd : p < data.length := by
      rw [hlen]; simpa using hp
    have hb := buildHit_roundtrip c.dct data c.len p
      (fun k => hlen.trans (hwf k).symm) hcols hpd
      (fun hd hhd => hx data[p] (List.getElem_mem hpd) hd hhd)
    rw [hb, List.getD_eq_getElem?_getD, List.getElem?_eq_getElem hpd]
    rfl
  rw [getEventGo_map _ _ _ _ hports]
  rw [← hlen, map_getD_range]

/-- C10 witness: a fresh 2-detector collection, one complete hit for
index 0 and no hit for index 1, round-trips through
`add_event`/`get_event`. -/
theorem C10_roundtrip_witness :
    ∃ c', (EventDataCollection.init 2).add_event [some goodHit, none] =
        .ok c' ∧
      c'.get_event (EventDataCollection.init 2).len =
        .ok [some goodHit, none] :=
  C10_roundtrip (EventDataCollection.init 2) [some goodHit, none]
    (fun k => by cases k <;> rfl)
    (fun k => by cases k <;> simp [EventDataCollection.init, Dct.get])
    (by decide)
    (by
      intro x hxm hd hhd
      fin_cases hxm
      · cases hhd; exact ⟨rfl, by decide⟩
      · cases hhd)

end PyWatch

namespace PyWatch

/-- `_make_dict_out_of_measurement` either fails on a line that does
not decompose, or succeeds with the parsed column values (the first one
offset by `start_time` and the calibration). -/
theorem make_dict_cases (st : Int) (output : List Tok) (t : Int) :
    (line_decomposes output = false ∧
      make_dict_out_of_measurement st output t = .error .parseError) ∨
    (∃ n1 n2 q3 n4 q5,
      (output[1]?).bind pyInt = some n1 ∧
      (output[2]?).bind pyInt = some n2 ∧
      (output[3]?).bind pyFloat = some q3 ∧
      (output[4]?).bind pyInt = some n4 ∧
      (output[5]?).bind pyFloat = some q5 ∧
      make_dict_out_of_measurement st output t =
        .ok { ard_time := n1 + st + calibration t, amplitude := n2,
              sipm_voltage := q3, dead_time := n4, temp := q5,
              comp_time := t }) := by
  rcases h1 : output[1]? with _ | t1
  · left; simp [line_decomposes, make_dict_out_of_measurement, h1]
  rcases hp1 : pyInt t1 with _ | n1
  · left; simp [line_decomposes, make_dict_out_of_measurement, h1, hp1]
  rcases h2 : output[2]? with _ | t2
  · left; simp [line_decomposes, make_dict_out_of_measurement, h1, hp1, h2]
  rcases hp2 : pyInt t2 with _ | n2
  · left
    simp [line_decomposes, make_dict_out_of_measurement, h1, hp1, h2, hp2]
  rcases h3 : output[3]? with _ | t3
  · left
    simp [line_decomposes, make_dict_out_of_measurement, h1, hp1, h2, hp2,
      h3]
  rcases hp3 : pyFloat t3 with _ | q3
  · left
    simp [line_decomposes, make_dict_out_of_measurement, h1, hp1, h2, hp2,
      h3, hp3]
  rcases h4 : output[4]? with _ | t4
  · left
    simp [line_decomposes, make_dict_out_of_measurement, h1, hp1, h2, hp2,
      h3, hp3, h4]
  rcases hp4 : pyInt t4 with _ | n4
  · left
    simp [line_decomposes, make_dict_out_of_measurement, h1, hp1, h2, hp2,
      h3, hp3, h4, hp4]
  rcases h5 : output[5]? with _ | t5
  · left
    simp [line_decomposes, make_dict_out_of_measurement, h1, hp1, h2, hp2,
      h3, hp3, h4, hp4, h5]
  rcases hp5 : pyFloat t5 with _ | q5
  · left
    simp [line_decomposes, make_dict_out_of_measurement, h1, hp1, h2, hp2,
      h3, hp3, h4, hp4, h5, hp5]
  right
  refine ⟨n1, n2, q3, n4, q5, by simp [h1, hp1], by simp [h2, hp2],
    by simp [h3, hp3], by simp [h4, hp4], by simp [h5, hp5], ?_⟩
  simp [make_dict_out_of_measurement, h1, hp1, h2, hp2, h3, hp3, h4, hp4,
    h5, hp5]

/-- C6 (amended): `measurement` raises the not-open error on a closed
connection and the parse error on a line that does not decompose into
the expected columns; a successful read returns `comp_time = now`,
columns 2..5 parsed into `amplitude`, `sipm_voltage`, `dead_time`,
`temp`, and column 1 parsed into `ard_time` minus the source's
`start_time` and the calibration term (i.e. `ard_time` is the parsed
value offset by `start_time`, calibration being constantly 0). -/
theorem C6_amended_measurement (start_time : Int) (ln : List Tok)
    (now : Int) :
    measurement false start_time ln now = .error .portNotOpen ∧
    (line_decomposes ln = false →
      measurement true start_time ln now = .error .parseError) ∧
    (∀ h : Hit, measurement true start_time ln now = .ok h →
      h.comp_time = now ∧
      (ln[1]?).bind pyInt = some (h.ard_time - start_time -
        calibration now) ∧
      (ln[2]?).bind pyInt = some h.amplitude ∧
      (ln[3]?).bind pyFloat = some h.sipm_voltage ∧
      (ln[4]?).bind pyInt = some h.dead_time ∧
      (ln[5]?).bind pyFloat = some h.temp) := by
  refine ⟨rfl, ?_, ?_⟩
  · intro hdec
    rcases make_dict_cases start_time ln now with ⟨_, herr⟩ |
      ⟨n1, n2, q3, n4, q5, e1, e2, e3, e4, e5, hok⟩
    · simpa [measurement] using herr
    · exfalso
      simp [line_decomposes, e1, e2, e3, e4, e5] at hdec
  · intro h hok
    have hmk : make_dict_out_of_measurement start_time ln now = .ok h := by
      simpa [measurement] using hok
    rcases make_dict_cases start_time ln now with ⟨_, herr⟩ |
      ⟨n1, n2, q3, n4, q5, e1, e2, e3, e4, e5, hmk'⟩
    · rw [herr] at hmk; cases hmk
    · rw [hmk'] at hmk
      have hrec := (Except.ok.injEq _ _).mp hmk
      subst hrec
      refine ⟨rfl, ?_, e2, e3, e4, e5⟩
      rw [e1]
      simp [calibration]

end PyWatch

namespace PyWatch

/-- C6 amended witness: a one-token line on an open detector raises the
parse error, and on the well-formed line `lnC6` (column 1 parses to 5)
with `start_time = 900` the successful hit satisfies
`parsed column 1 = ard_time - start_time - calibration`. -/
theorem C6_amended_measurement_witness :
    measurement true 900 [Tok.junkTok] 5 = .error .parseError ∧
    (lnC6[1]?).bind pyInt = some ((905 : Int) - 900 - calibration 1000) :=
  ⟨(C6_amended_measurement 900 [Tok.junkTok] 5).2.1 (by decide),
   ((C6_amended_measurement 900 lnC6 1000).2.2
      { ard_time := 905, amplitude := 1, sipm_voltage := 7, dead_time := 2,
        temp := 9, comp_time := 1000 } (by rfl)).2.1⟩

end PyWatch
